import Mathlib

/-!
Verification of the KWin region algebra (`src/core/region.h`).

The repository ships the class definition and the inline member functions of
`KWin::Region` and `KWin::RegionF` in `region.h`; the out-of-line members
(`rects()`, `boundingRect()`, the band-decomposition drivers `unite`,
`subtract`, `exclusiveOr`, `intersect`, and the `fromSortedRects`
constructor) live in a translation unit that is not part of the sources, so
those are modelled from the specification (spec sections 3, 4.2, 4.3, 4.4,
4.5).  Everything taken from `region.h` is marked with the line numbers of
the source.

Coordinates are embedded as `Int` (the C++ `int` arithmetic performed in the
claims never overflows; where C++ truncating division occurs we use
`Int.tdiv`).  The real-coordinate variant `RegionF` is embedded over `ℚ`:
every `double` value appearing in the verified computations
(`numeric_limits<double>::min()`, its exact halving into a subnormal, and
`numeric_limits<double>::max()`) is exactly representable, so no rounding is
lost in the model.
-/

namespace KWinRegion

/-- Modelled from the spec: the rectangle primitive `Rect` is an external
collaborator of the region header ("supplied as a `Rect` type with `x,y,w,h`
and the expected inspectors", spec section 1; data model spec section 3).  It
stores position and size; the half-open corners are `x1 = x`, `y1 = y`,
`x2 = x + w`, `y2 = y + h`. -/
structure Rect where
  x : Int
  y : Int
  w : Int
  h : Int
deriving DecidableEq

/-- Left edge `x1` of the half-open rectangle. -/
def Rect.left (r : Rect) : Int := r.x

/-- Top edge `y1` of the half-open rectangle. -/
def Rect.top (r : Rect) : Int := r.y

/-- Right edge `x2 = x + w` of the half-open rectangle. -/
def Rect.right (r : Rect) : Int := r.x + r.w

/-- Bottom edge `y2 = y + h` of the half-open rectangle. -/
def Rect.bottom (r : Rect) : Int := r.y + r.h

/-- Modelled from the spec: a rectangle is empty iff `x1 ≥ x2 ∨ y1 ≥ y2`
(spec section 3), i.e. iff its width or height is nonpositive. -/
def Rect.isEmpty (r : Rect) : Bool := decide (r.w ≤ 0) || decide (r.h ≤ 0)

/-- Modelled from the spec: the value of a default-constructed (value
initialised) `Rect{}`, as produced by `std::exchange(other.m_bounds, {})` in
`region.h` lines 1051-1055 and 1117-1122: all four components zero. -/
def Rect.null : Rect := ⟨0, 0, 0, 0⟩

/-- The region representation, from `region.h` lines 510-511: a rectangle
list `m_rects` and a cached bounding rectangle `m_bounds`. -/
structure Region where
  m_rects : List Rect
  m_bounds : Rect
deriving DecidableEq

/-- Source `Region::Region()` (`region.h` lines 1031-1033): both members are
default constructed, so the list is empty and the bounds are `Rect.null`. -/
def Region.empty : Region := ⟨[], Rect.null⟩

/-- Source `Region::Region(int x, int y, int width, int height)` (`region.h`
lines 1035-1038): only `m_bounds` is initialised, `m_rects` stays empty. -/
def Region.ofXYWH (x y w h : Int) : Region := ⟨[], ⟨x, y, w, h⟩⟩

/-- Source `Region::Region(const Rect &rect)` (`region.h` lines 1040-1043):
only `m_bounds` is initialised with the rectangle, `m_rects` stays empty. -/
def Region.ofRect (rect : Rect) : Region := ⟨[], rect⟩

/-- Source `Region::operator==` (`region.h` lines 1105-1108): memberwise
comparison `m_bounds == other.m_bounds && m_rects == other.m_rects`. -/
def Region.beq (a other : Region) : Bool :=
  decide (a.m_bounds = other.m_bounds) && decide (a.m_rects = other.m_rects)

/-- The C++ `int` minimum, `-2^31`. -/
def intMin : Int := -2147483648

/-- The C++ `int` maximum, `2^31 - 1`. -/
def intMax : Int := 2147483647

/-- Source `Region::infinite()` (`region.h` lines 1057-1063): the region of
the single rectangle `(INT_MIN / 2, INT_MIN / 2, INT_MAX, INT_MAX)`; C++
signed integer division truncates toward zero, hence `Int.tdiv`. -/
def Region.infinite : Region :=
  Region.ofXYWH (intMin.tdiv 2) (intMin.tdiv 2) intMax intMax

/-- Modelled from the spec: `rects()` is declared in `region.h` line 237 but
defined out of line.  Spec section 3 fixes its value: the canonical rectangle
sequence, with `rects = []` for the empty region; combined with the inline
constructors (`region.h` lines 1035-1043), which store a single input
rectangle only in `m_bounds`, the view is `m_rects` when nonempty, otherwise
the single rectangle `m_bounds` when that is nonempty, otherwise empty. -/
def Region.rects (r : Region) : List Rect :=
  match r.m_rects with
  | [] => if r.m_bounds.isEmpty then [] else [r.m_bounds]
  | rs => rs

/-- Modelled from the spec: `boundingRect()` is declared in `region.h` line
102 but defined out of line; spec section 4.5 says it returns the cached
bounds `B`, i.e. the member `m_bounds`. -/
def Region.boundingRect (r : Region) : Rect := r.m_bounds

/-- Component-wise union of two bounding rectangles: smallest rectangle
containing both (spec section 3, invariant 5). -/
def boundsUnion (a b : Rect) : Rect :=
  let l := min a.left b.left
  let t := min a.top b.top
  let rr := max a.right b.right
  let bb := max a.bottom b.bottom
  ⟨l, t, rr - l, bb - t⟩

/-- Modelled from the spec: the recomputed bounds cache `B` of a rectangle
list, the component-wise union of all rectangles' bounds, or the null
rectangle for the empty list (spec section 3, invariant 5). -/
def computeBounds : List Rect → Rect
  | [] => Rect.null
  | r :: rs => rs.foldl boundsUnion r

/-- Modelled from the spec: how an operation result is stored in the two
members of `region.h` lines 510-511.  The inline constructors store a single
rectangle only in `m_bounds` with an empty `m_rects`, and `operator==`
(`region.h` lines 1105-1108) compares members; for canonical equality of
point sets (spec section 3) every producer must therefore store an empty or
single-rectangle result in the bounds alone, and a longer list in `m_rects`
with the recomputed bounds. -/
def setRects : List Rect → Region
  | [] => ⟨[], Rect.null⟩
  | [r] => ⟨[], r⟩
  | rs => ⟨rs, computeBounds rs⟩

/-! ### Sorted deduplicated coordinate lists

The band decomposition (spec section 4.2) walks the operands along the
distinct band boundaries.  We realise the walk by cutting the plane at every
top/bottom (respectively left/right) coordinate occurring in either operand,
in strictly increasing order without duplicates. -/

/-- Ordered duplicate-free insertion into a strictly increasing list. -/
def insertSorted (a : Int) : List Int → List Int
  | [] => [a]
  | b :: bs =>
    if a < b then a :: b :: bs
    else if a = b then b :: bs
    else b :: insertSorted a bs

/-- Sort a coordinate list strictly increasing, dropping duplicates. -/
def sortDedup (l : List Int) : List Int := l.foldr insertSorted []

theorem mem_insertSorted (a x : Int) (l : List Int) :
    x ∈ insertSorted a l ↔ x = a ∨ x ∈ l := by
  induction l with
  | nil => simp [insertSorted]
  | cons b bs ih =>
    by_cases hab : a < b
    · simp [insertSorted, hab]
    · by_cases heq : a = b
      · subst heq
        simp [insertSorted, hab]
      · simp only [insertSorted, if_neg hab, if_neg heq, List.mem_cons, ih]
        tauto

theorem sorted_insertSorted (a : Int) (l : List Int)
    (h : l.Sorted (· < ·)) : (insertSorted a l).Sorted (· < ·) := by
  induction l with
  | nil => simp [insertSorted]
  | cons b bs ih =>
    rw [List.sorted_cons] at h
    by_cases hab : a < b
    · rw [insertSorted, if_pos hab, List.sorted_cons]
      refine ⟨?_, by rw [List.sorted_cons]; exact h⟩
      intro c hc
      rw [List.mem_cons] at hc
      rcases hc with rfl | hc
      · exact hab
      · exact hab.trans (h.1 c hc)
    · by_cases heq : a = b
      · subst heq
        rw [insertSorted, if_neg hab, if_pos rfl, List.sorted_cons]
        exact h
      · rw [insertSorted, if_neg hab, if_neg heq, List.sorted_cons]
        refine ⟨?_, ih h.2⟩
        intro c hc
        rw [mem_insertSorted] at hc
        rcases hc with rfl | hc
        · omega
        · exact h.1 c hc

theorem sorted_sortDedup (l : List Int) : (sortDedup l).Sorted (· < ·) := by
  induction l with
  | nil => simp [sortDedup]
  | cons a as ih => exact sorted_insertSorted a _ ih

theorem mem_sortDedup (x : Int) (l : List Int) :
    x ∈ sortDedup l ↔ x ∈ l := by
  induction l with
  | nil => simp [sortDedup]
  | cons a as ih =>
    show x ∈ insertSorted a (sortDedup as) ↔ _
    rw [mem_insertSorted, ih, List.mem_cons]

theorem sortDedup_eq_of_mem_iff {l₁ l₂ : List Int}
    (h : ∀ x, x ∈ l₁ ↔ x ∈ l₂) : sortDedup l₁ = sortDedup l₂ := by
  have s₁ := sorted_sortDedup l₁
  have s₂ := sorted_sortDedup l₂
  refine List.eq_of_perm_of_sorted ?_ s₁ s₂
  refine (List.perm_ext_iff_of_nodup s₁.nodup s₂.nodup).mpr ?_
  intro a
  rw [mem_sortDedup, mem_sortDedup]
  exact h a

/-! ### The band decomposition algorithm

Modelled from the spec, sections 4.2 to 4.4: the binary operations walk the
two canonical rectangle sequences as streams of horizontal bands and emit a
canonical region.  The model realises the walk denotationally: the plane is
cut at every band boundary of either operand (the `top` and `bottom` of
every rectangle); inside one such strip each operand contributes a fixed
horizontal footprint, the per-operation band function of spec section 4.3 is
applied to the two footprints, and finally vertically adjacent output bands
with identical footprints are coalesced (spec section 4.4).  The four band
functions of spec section 4.3 are all instances of one sweep: cut the x-axis
at every interval endpoint of either footprint, keep exactly the elementary
cells on which the pointwise boolean combination of the two coverages holds
(union: either side covers; intersection: both; subtraction: left and not
right; xor: exactly one), and merge touching kept cells into maximal
intervals — the "occupy maximal horizontal extent" rule. -/

/-- Cut points turned into the list of elementary half-open cells between
consecutive coordinates. -/
def cellsOf (xs : List Int) : List (Int × Int) := xs.zip xs.tail

/-- Whether a horizontal footprint (a list of half-open `(left, right)`
intervals) covers the column `x`. -/
def coveredAt (fp : List (Int × Int)) (x : Int) : Bool :=
  fp.any (fun iv => decide (iv.1 ≤ x) && decide (x < iv.2))

/-- Merge a run of kept cells: a cell touching the accumulated interval
extends it, otherwise the accumulated interval is emitted (spec section 4.3,
`mergeBands` accumulation of a running interval). -/
def mergeRun (cur : Int × Int) : List (Int × Int) → List (Int × Int)
  | [] => [cur]
  | c :: cs =>
    if cur.2 = c.1 then mergeRun (cur.1, c.2) cs else cur :: mergeRun c cs

/-- Merge touching cells of a kept-cell list into maximal intervals. -/
def mergeCells : List (Int × Int) → List (Int × Int)
  | [] => []
  | c :: cs => mergeRun c cs

/-- All interval endpoints of a footprint. -/
def endpoints (fp : List (Int × Int)) : List Int :=
  fp.foldr (fun iv acc => iv.1 :: iv.2 :: acc) []

/-- Modelled from the spec: one per-operation band function of spec section
4.3, combining the two operand footprints of a single strip.  `opB` is the
pointwise boolean combination characterising the operation. -/
def combineBand (opB : Bool → Bool → Bool) (fpL fpR : List (Int × Int)) :
    List (Int × Int) :=
  let xs := sortDedup (endpoints fpL ++ endpoints fpR)
  mergeCells ((cellsOf xs).filter
    (fun c => opB (coveredAt fpL c.1) (coveredAt fpR c.1)))

/-- The footprint an operand contributes to the strip starting at `t`: the
`(left, right)` intervals of its rectangles whose y-range covers the strip.
Because strips are cut at every rectangle boundary, a rectangle covers the
whole strip iff it covers the strip's top coordinate. -/
def footprintAt (rs : List Rect) (t : Int) : List (Int × Int) :=
  (rs.filter (fun r => decide (r.top ≤ t) && decide (t < r.bottom))).map
    (fun r => (r.left, r.right))

/-- All top and bottom coordinates of a rectangle list. -/
def topsBottoms (rs : List Rect) : List Int :=
  rs.foldr (fun r acc => r.top :: r.bottom :: acc) []

/-- The strictly increasing list of all band boundaries of both operands. -/
def ysOf (ls rs : List Rect) : List Int :=
  sortDedup (topsBottoms ls ++ topsBottoms rs)

/-- A produced band: top, bottom, and horizontal footprint. -/
abbrev Band := Int × Int × List (Int × Int)

/-- Modelled from the spec: the band-scan driver of spec section 4.2.  Every
strip between consecutive band boundaries of the two operands is processed
with the per-operation band function; strips with an empty result are gaps
and are skipped. -/
def opBands (opB : Bool → Bool → Bool) (ls rs : List Rect) : List Band :=
  (cellsOf (ysOf ls rs)).filterMap (fun strip =>
    let fp := combineBand opB (footprintAt ls strip.1) (footprintAt rs strip.1)
    if fp = [] then none else some (strip.1, strip.2, fp))

/-- Coalescing run (spec section 4.4): when the previous band's bottom
touches the next band's top and the footprints are identical, the two bands
are replaced by one spanning both. -/
def coalesceRun (cur : Band) : List Band → List Band
  | [] => [cur]
  | b :: bs =>
    if decide (cur.2.1 = b.1) && decide (cur.2.2 = b.2.2) then
      coalesceRun (cur.1, b.2.1, cur.2.2) bs
    else
      cur :: coalesceRun b bs

/-- Modelled from the spec: vertical coalescing of adjacent identical bands,
spec section 4.4. -/
def coalesce : List Band → List Band
  | [] => []
  | b :: bs => coalesceRun b bs

/-- Flatten coalesced bands back into the canonical rectangle list (y-x
lexicographic band order, `region.h` lines 29-34). -/
def bandsToRects (bs : List Band) : List Rect :=
  bs.foldr
    (fun b acc =>
      (b.2.2.map (fun iv => Rect.mk iv.1 b.1 (iv.2 - iv.1) (b.2.1 - b.1))) ++ acc)
    []

/-- Modelled from the spec: the shared driver of the four binary set
operations (spec sections 4.2 to 4.4), parameterised by the pointwise
boolean combination of coverages, producing the canonical result region. -/
def Region.regionOp (opB : Bool → Bool → Bool) (a other : Region) : Region :=
  setRects (bandsToRects (coalesce (opBands opB a.rects other.rects)))

/-- Modelled from the spec: `Region::united(const Region &)`, declared in
`region.h` line 134, defined out of line via the `unite` driver; a point of
the union is covered by either operand (spec sections 4.2, 4.3). -/
def Region.united (a other : Region) : Region :=
  Region.regionOp (fun l r => l || r) a other

/-- Modelled from the spec: `Region::subtracted(const Region &)`, declared
in `region.h` line 146, defined out of line via the `subtract` driver; a
point of the difference is covered by the left and not the right operand
(spec sections 4.2, 4.3). -/
def Region.subtracted (a other : Region) : Region :=
  Region.regionOp (fun l r => l && !r) a other

/-- Modelled from the spec: `Region::xored(const Region &)`, declared in
`region.h` line 158, defined out of line via the `exclusiveOr` driver; a
point of the symmetric difference is covered by exactly one operand (spec
sections 4.2, 4.3). -/
def Region.xored (a other : Region) : Region :=
  Region.regionOp (fun l r => l != r) a other

/-- Modelled from the spec: `Region::intersected(const Region &)`, declared
in `region.h` line 170, defined out of line via the `intersect` driver; a
point of the intersection is covered by both operands (spec sections 4.2,
4.3). -/
def Region.intersected (a other : Region) : Region :=
  Region.regionOp (fun l r => l && r) a other

/-- Source `Region::united(const Rect &)` (`region.h` lines 1085-1088):
defined as `united(Region(other))`. -/
def Region.unitedRect (a : Region) (other : Rect) : Region :=
  a.united (Region.ofRect other)

/-- Source `Region::subtracted(const Rect &)` (`region.h` lines 1090-1093):
defined as `subtracted(Region(other))`. -/
def Region.subtractedRect (a : Region) (other : Rect) : Region :=
  a.subtracted (Region.ofRect other)

/-- Source `Region::xored(const Rect &)` (`region.h` lines 1095-1098):
defined as `xored(Region(other))`. -/
def Region.xoredRect (a : Region) (other : Rect) : Region :=
  a.xored (Region.ofRect other)

/-- Source `Region::intersected(const Rect &)` (`region.h` lines 1100-1103):
defined as `intersected(Region(other))`. -/
def Region.intersectedRect (a : Region) (other : Rect) : Region :=
  a.intersected (Region.ofRect other)

/-- Modelled from the spec: `Region::fromSortedRects`, declared in
`region.h` line 453, defined out of line; spec section 4.1 says the input is
already canonical and is accepted verbatim with the bounds cache recomputed,
stored as every producer stores its result. -/
def Region.fromSortedRects (rs : List Rect) : Region := setRects rs

/-! ### Move semantics

`std::exchange(obj, v)` reads the current value of `obj`, stores `v` into
it, and returns the old value.  The model threads the state explicitly: the
first component is the returned old value, the second the new stored one. -/

/-- Model of `std::exchange(obj, v)`: `(old value, newly stored value)`. -/
def exchange {α : Type} (obj v : α) : α × α := (obj, v)

/-- Source `Region::Region(Region &&other)` (`region.h` lines 1051-1055):
member `m_rects` is initialised from `std::exchange(other.m_rects, {})` and
`m_bounds` from `std::exchange(other.m_bounds, {})`.  The result is the pair
(constructed region, state of `other` after the call). -/
def Region.moveConstruct (other : Region) : Region × Region :=
  let er := exchange other.m_rects []
  let eb := exchange other.m_bounds Rect.null
  (⟨er.1, eb.1⟩, ⟨er.2, eb.2⟩)

/-- Source `Region::operator=(Region &&other)` (`region.h` lines 1117-1122)
for a destination distinct from `other`: each member of the destination is
assigned from `std::exchange` of the corresponding member of `other`.  The
result is the pair (new destination, state of `other` after the call). -/
def Region.moveAssign (dst other : Region) : Region × Region :=
  let er := exchange other.m_rects []
  let eb := exchange other.m_bounds Rect.null
  (⟨er.1, eb.1⟩, ⟨er.2, eb.2⟩)

/-- Source `Region::operator=(Region &&other)` (`region.h` lines 1117-1122)
in the aliased case `this == &other`: `m_rects = std::exchange(m_rects, {})`
first stores `{}` into the member and then assigns the returned old value
back to the very same member, and likewise for `m_bounds`.  The state is
threaded through both steps of each statement. -/
def Region.moveAssignSelf (r : Region) : Region :=
  let er := exchange r.m_rects []
  let r₁ : Region := ⟨er.2, r.m_bounds⟩
  let r₂ : Region := ⟨er.1, r₁.m_bounds⟩
  let eb := exchange r₂.m_bounds Rect.null
  let r₃ : Region := ⟨r₂.m_rects, eb.2⟩
  ⟨r₃.m_rects, eb.1⟩

/-! ### The real-coordinate variant

`RegionF` (`region.h` lines 560-1029) repeats the same class over `qreal`
(`double`) coordinates.  The embedding uses `ℚ`; every `double` value that
occurs in the verified computations is exactly representable, including
`numeric_limits<double>::min() / 2`, which is the exact subnormal
`2 ^ (-1023)`. -/

/-- Modelled from the spec: the real-coordinate rectangle primitive `RectF`
(external collaborator, spec sections 1 and 3), position and size. -/
structure RectF where
  x : ℚ
  y : ℚ
  w : ℚ
  h : ℚ
deriving DecidableEq

/-- Modelled from the spec: the value of a default-constructed `RectF{}`, as
produced by `std::exchange(other.m_bounds, {})` in `region.h` lines
1254-1258 and 1320-1325: all four components zero. -/
def RectF.null : RectF := ⟨0, 0, 0, 0⟩

/-- The real-coordinate region representation, from `region.h` lines
1025-1026: a rectangle list `m_rects` and a cached bounding rectangle
`m_bounds`. -/
structure RegionF where
  m_rects : List RectF
  m_bounds : RectF
deriving DecidableEq

/-- Source `RegionF::RegionF(qreal x, qreal y, qreal width, qreal height)`
(`region.h` lines 1238-1241): only `m_bounds` is initialised. -/
def RegionF.ofXYWH (x y w h : ℚ) : RegionF := ⟨[], ⟨x, y, w, h⟩⟩

/-- The exact value of `std::numeric_limits<double>::min()`: the smallest
positive normal IEEE-754 binary64 number, `2 ^ (-1022)`.  It is positive,
not the most negative double. -/
def dblMin : ℚ := 1 / 2 ^ 1022

/-- The exact value of `std::numeric_limits<double>::max()`,
`(2 ^ 53 - 1) * 2 ^ 971`. -/
def dblMax : ℚ := (2 ^ 53 - 1) * 2 ^ 971

/-- Source `RegionF::infinite()` (`region.h` lines 1260-1266): the region of
the single rectangle `(min() / 2, min() / 2, max(), max())`.  The halving of
`min()` is exact in binary64 (the subnormal `2 ^ (-1023)`), so the `ℚ` value
below is the exact `double` the code computes. -/
def RegionF.infinite : RegionF :=
  RegionF.ofXYWH (dblMin / 2) (dblMin / 2) dblMax dblMax

/-- Source `RegionF::operator=(RegionF &&other)` (`region.h` lines
1320-1325) in the aliased case `this == &other`, with the state threaded
through `std::exchange` exactly as in `Region.moveAssignSelf`. -/
def RegionF.moveAssignSelf (r : RegionF) : RegionF :=
  let er := exchange r.m_rects []
  let r₁ : RegionF := ⟨er.2, r.m_bounds⟩
  let r₂ : RegionF := ⟨er.1, r₁.m_bounds⟩
  let eb := exchange r₂.m_bounds RectF.null
  let r₃ : RegionF := ⟨r₂.m_rects, eb.2⟩
  ⟨r₃.m_rects, eb.1⟩

/-! ### Copying, translation, rebuild constructors, interop and rounding -/

/-- Source `Region::Region(const Region &other)` (`region.h` lines
1045-1049) and `Region::operator=(const Region &)` (`region.h` lines
1110-1115): both members are copied, so the produced value is `other`
itself. -/
def Region.copy (other : Region) : Region := ⟨other.m_rects, other.m_bounds⟩

/-- Translation of a rectangle by `(dx, dy)`: the position moves, the size
is unchanged (spec section 4.6). -/
def shiftRect (dx dy : Int) (r : Rect) : Rect := ⟨r.x + dx, r.y + dy, r.w, r.h⟩

/-- Modelled from the spec: `translate` / `translated` (`region.h` lines
184-204; the inline `(int, int)` overloads at lines 1065-1073 delegate to
the `QPoint` overloads, which are defined out of line).  Spec section 4.6:
add the offsets to every coordinate and to the bounds `B`; canonicity is
preserved.  The in-place `translate` leaves the object with this same
value, so this definition covers all four overloads. -/
def Region.translated (r : Region) (dx dy : Int) : Region :=
  ⟨r.m_rects.map (shiftRect dx dy), shiftRect dx dy r.m_bounds⟩

/-- Modelled from the spec: `Region::fromUnsortedRects` (declared `region.h`
line 462, defined out of line); spec section 4.1: a general union by
repeated pairwise unite, here the naive left fold the spec admits.  An
empty input rectangle forms an empty region and contributes nothing to a
union, which realises the silent filtering of empty input rectangles (spec
section 4.8). -/
def Region.fromUnsortedRects (rs : List Rect) : Region :=
  rs.foldl (fun acc r => acc.unitedRect r) Region.empty

/-- Modelled from the spec: `Region::fromRectsSortedByY` (declared
`region.h` line 476, defined out of line); spec section 4.1 (bucket by top,
organize each band, coalesce).  All three construction paths produce the
canonical region of the point-set union of the inputs (spec sections 4.1
and 8, representation uniqueness), which the model realises by the same
pairwise-unite fold. -/
def Region.fromRectsSortedByY (rs : List Rect) : Region :=
  rs.foldl (fun acc r => acc.unitedRect r) Region.empty

/-- Modelled from the spec: `Region::Region(const QRegion &)` (declared
`region.h` line 96, defined out of line); spec section 6: interop with the
host toolkit's region type has the same semantics.  The toolkit region is
abstracted by its rectangle list, and the conversion produces the canonical
region of their union. -/
def Region.ofQRegion (rs : List Rect) : Region := Region.fromUnsortedRects rs

/-- Modelled from the spec: per-rectangle scaling followed by rounding out
(floor the left/top, ceil the right/bottom), spec section 4.6.  The `qreal`
scale factors are embedded as exact rationals; the C++ computes in
`double`, but the bounds-cache invariant of the rebuilt region does not
depend on the particular rounded coordinate values. -/
def Rect.scaledRoundedOut (r : Rect) (sx sy : ℚ) : Rect :=
  let l := Rat.floor ((r.left : ℚ) * sx)
  let t := Rat.floor ((r.top : ℚ) * sy)
  let rr := Rat.ceil ((r.right : ℚ) * sx)
  let bb := Rat.ceil ((r.bottom : ℚ) * sy)
  ⟨l, t, rr - l, bb - t⟩

/-- Modelled from the spec: `Region::scaledAndRoundedOut` (the
single-factor overload at `region.h` lines 1080-1083 delegates to the
two-factor overload declared at line 232 and defined out of line); spec
section 4.6: scale, round out each rectangle, then rebuild via the
unsorted constructor since the rounded rectangles may touch or overlap. -/
def Region.scaledAndRoundedOut (r : Region) (sx sy : ℚ) : Region :=
  Region.fromUnsortedRects (r.rects.map (fun t => t.scaledRoundedOut sx sy))

/-- Modelled from the spec: a real-coordinate rectangle is empty iff its
width or height is nonpositive (spec section 3). -/
def RectF.isEmpty (r : RectF) : Bool := decide (r.w ≤ 0) || decide (r.h ≤ 0)

/-- Modelled from the spec: the `rects()` view of a `RegionF` (declared
`region.h` line 757, defined out of line), following the same
representation convention as the integer variant. -/
def RegionF.rects (r : RegionF) : List RectF :=
  match r.m_rects with
  | [] => if r.m_bounds.isEmpty then [] else [r.m_bounds]
  | rs => rs

/-- Modelled from the spec: `RectF::rounded()` (referenced at `region.h`
line 736), rounding every edge to the nearest integer; ties round up in
the model (the verified claims do not depend on the tie rule). -/
def RectF.rounded (r : RectF) : Rect :=
  let l := Rat.floor (r.x + 1 / 2)
  let t := Rat.floor (r.y + 1 / 2)
  let rr := Rat.floor (r.x + r.w + 1 / 2)
  let bb := Rat.floor (r.y + r.h + 1 / 2)
  ⟨l, t, rr - l, bb - t⟩

/-- Modelled from the spec: `RectF::roundedIn()` (referenced at `region.h`
line 743), ceil the left/top and floor the right/bottom. -/
def RectF.roundedIn (r : RectF) : Rect :=
  let l := Rat.ceil r.x
  let t := Rat.ceil r.y
  let rr := Rat.floor (r.x + r.w)
  let bb := Rat.floor (r.y + r.h)
  ⟨l, t, rr - l, bb - t⟩

/-- Modelled from the spec: `RectF::roundedOut()` (referenced at `region.h`
line 750), floor the left/top and ceil the right/bottom. -/
def RectF.roundedOut (r : RectF) : Rect :=
  let l := Rat.floor r.x
  let t := Rat.floor r.y
  let rr := Rat.ceil (r.x + r.w)
  let bb := Rat.ceil (r.y + r.h)
  ⟨l, t, rr - l, bb - t⟩

/-- Modelled from the spec: `RegionF::rounded()` (`region.h` lines 733-738,
defined out of line); spec section 4.6: apply per-rectangle rounding, drop
rectangles that become empty, rebuild — realised by the unsorted
constructor, in which empty rectangles contribute nothing. -/
def RegionF.rounded (r : RegionF) : Region :=
  Region.fromUnsortedRects (r.rects.map RectF.rounded)

/-- Modelled from the spec: `RegionF::roundedIn()` (`region.h` lines
740-745, defined out of line); spec section 4.6, as for `rounded()`. -/
def RegionF.roundedIn (r : RegionF) : Region :=
  Region.fromUnsortedRects (r.rects.map RectF.roundedIn)

/-- Modelled from the spec: `RegionF::roundedOut()` (`region.h` lines
747-752, defined out of line); spec section 4.6, as for `rounded()`. -/
def RegionF.roundedOut (r : RegionF) : Region :=
  Region.fromUnsortedRects (r.rects.map RectF.roundedOut)

/-! ### Well-formedness

A region value is well formed when its two members store the canonical
rectangle list the way every producer stores it: the empty region as
`([], Rect.null)`, a single rectangle in the bounds alone, and a longer
list in `m_rects` with the recomputed bounds cache (spec section 3,
invariants 4 and 5). -/

/-- Canonical representation predicate for region values. -/
def Region.WF (r : Region) : Prop := setRects r.rects = r

instance (r : Region) : Decidable r.WF := by
  unfold Region.WF
  infer_instance

/-- Region values reachable through the public API producing `Region`
values: every constructor of `region.h` (default, rectangle, copy, move,
`QRegion`, the three list constructors, `infinite`), the four set
operations with both overloads, translation, `scaledAndRoundedOut`, both
sides of move construction and move assignment (including the aliased
self-move), and the three rounding conversions from `RegionF`.  The inline
convenience operators `| + - & ^` and their compound forms (`region.h`
lines 1124-1232) delegate to `united`, `subtracted`, `intersected`,
`xored` and `operator=`, so their values are covered by these cases. -/
inductive Produced : Region → Prop
  | empty : Produced Region.empty
  | ofXYWH (x y w h : Int) : Produced (Region.ofXYWH x y w h)
  | ofRect (r : Rect) : Produced (Region.ofRect r)
  | infinite : Produced Region.infinite
  | fromSortedRects (rs : List Rect) : Produced (Region.fromSortedRects rs)
  | fromUnsortedRects (rs : List Rect) : Produced (Region.fromUnsortedRects rs)
  | fromRectsSortedByY (rs : List Rect) :
      Produced (Region.fromRectsSortedByY rs)
  | ofQRegion (rs : List Rect) : Produced (Region.ofQRegion rs)
  | united (a b : Region) : Produced a → Produced b → Produced (a.united b)
  | subtracted (a b : Region) :
      Produced a → Produced b → Produced (a.subtracted b)
  | xored (a b : Region) : Produced a → Produced b → Produced (a.xored b)
  | intersected (a b : Region) :
      Produced a → Produced b → Produced (a.intersected b)
  | unitedRect (a : Region) (t : Rect) : Produced a → Produced (a.unitedRect t)
  | subtractedRect (a : Region) (t : Rect) :
      Produced a → Produced (a.subtractedRect t)
  | xoredRect (a : Region) (t : Rect) : Produced a → Produced (a.xoredRect t)
  | intersectedRect (a : Region) (t : Rect) :
      Produced a → Produced (a.intersectedRect t)
  | copy (a : Region) : Produced a → Produced (Region.copy a)
  | translated (a : Region) (dx dy : Int) :
      Produced a → Produced (a.translated dx dy)
  | scaledAndRoundedOut (a : Region) (sx sy : ℚ) :
      Produced a → Produced (a.scaledAndRoundedOut sx sy)
  | moveConstructDst (a : Region) :
      Produced a → Produced (Region.moveConstruct a).1
  | moveConstructSrc (a : Region) :
      Produced a → Produced (Region.moveConstruct a).2
  | moveAssignDst (dst a : Region) :
      Produced dst → Produced a → Produced (Region.moveAssign dst a).1
  | moveAssignSrc (dst a : Region) :
      Produced dst → Produced a → Produced (Region.moveAssign dst a).2
  | moveAssignSelf (a : Region) :
      Produced a → Produced (Region.moveAssignSelf a)
  | roundedF (fr : RegionF) : Produced (RegionF.rounded fr)
  | roundedInF (fr : RegionF) : Produced (RegionF.roundedIn fr)
  | roundedOutF (fr : RegionF) : Produced (RegionF.roundedOut fr)

/-! ### Helper lemmas -/

theorem Region.beq_self (r : Region) : Region.beq r r = true := by
  simp [Region.beq]

theorem ysOf_comm (ls rs : List Rect) : ysOf ls rs = ysOf rs ls := by
  apply sortDedup_eq_of_mem_iff
  intro x
  simp only [List.mem_append]
  tauto

theorem combineBand_comm (opB : Bool → Bool → Bool)
    (h : ∀ a b, opB a b = opB b a) (fpL fpR : List (Int × Int)) :
    combineBand opB fpL fpR = combineBand opB fpR fpL := by
  unfold combineBand
  have hxs : sortDedup (endpoints fpL ++ endpoints fpR)
      = sortDedup (endpoints fpR ++ endpoints fpL) := by
    apply sortDedup_eq_of_mem_iff
    intro x
    simp only [List.mem_append]
    tauto
  rw [hxs]
  have hfun : (fun c : Int × Int => opB (coveredAt fpL c.1) (coveredAt fpR c.1))
      = (fun c : Int × Int => opB (coveredAt fpR c.1) (coveredAt fpL c.1)) :=
    funext (fun c => h _ _)
  rw [hfun]

theorem opBands_comm (opB : Bool → Bool → Bool)
    (h : ∀ a b, opB a b = opB b a) (ls rs : List Rect) :
    opBands opB ls rs = opBands opB rs ls := by
  unfold opBands
  rw [ysOf_comm]
  have hfun : (fun strip : Int × Int =>
        let fp := combineBand opB (footprintAt ls strip.1) (footprintAt rs strip.1)
        if fp = [] then none else some (strip.1, strip.2, fp))
      = (fun strip : Int × Int =>
        let fp := combineBand opB (footprintAt rs strip.1) (footprintAt ls strip.1)
        if fp = [] then none else some (strip.1, strip.2, fp)) := by
    funext strip
    rw [combineBand_comm opB h]
  rw [hfun]

theorem regionOp_comm (opB : Bool → Bool → Bool)
    (h : ∀ a b, opB a b = opB b a) (a b : Region) :
    Region.regionOp opB a b = Region.regionOp opB b a := by
  unfold Region.regionOp
  rw [opBands_comm opB h]

theorem computeBounds_single (r : Rect) : computeBounds [r] = r := rfl

theorem boundsOK_setRects (rs : List Rect) :
    ((setRects rs).rects = [] → (setRects rs).m_bounds.isEmpty = true) ∧
      ((setRects rs).rects ≠ [] →
        (setRects rs).m_bounds = computeBounds (setRects rs).rects) := by
  match rs with
  | [] =>
    constructor
    · intro _
      decide
    · intro hne
      exact absurd (by decide) hne
  | [r] =>
    by_cases he : r.isEmpty = true
    · constructor
      · intro _
        exact he
      · intro hne
        exact absurd (by simp [setRects, Region.rects, he]) hne
    · constructor
      · intro h
        simp [setRects, Region.rects, he] at h
      · intro _
        have h1 : (setRects [r]).rects = [r] := by
          simp [setRects, Region.rects, he]
        rw [h1]
        rfl
  | r₁ :: r₂ :: rest =>
    constructor
    · intro h
      simp [setRects, Region.rects] at h
    · intro _
      rfl

theorem isEmpty_shiftRect (dx dy : Int) (b : Rect) :
    (shiftRect dx dy b).isEmpty = b.isEmpty := rfl

theorem rects_translated (dx dy : Int) (r : Region) :
    (r.translated dx dy).rects = r.rects.map (shiftRect dx dy) := by
  rcases hm : r.m_rects with _ | ⟨a, l⟩
  · by_cases hb : r.m_bounds.isEmpty = true
    · simp [Region.translated, Region.rects, hm, isEmpty_shiftRect, hb]
    · simp [Region.translated, Region.rects, hm, isEmpty_shiftRect, hb]
  · simp [Region.translated, Region.rects, hm]

theorem boundsUnion_shift (dx dy : Int) (a b : Rect) :
    boundsUnion (shiftRect dx dy a) (shiftRect dx dy b)
      = shiftRect dx dy (boundsUnion a b) := by
  simp only [boundsUnion, shiftRect, Rect.left, Rect.top, Rect.right,
    Rect.bottom, Rect.mk.injEq]
  refine ⟨?_, ?_, ?_, ?_⟩ <;> omega

theorem computeBounds_map_shift (dx dy : Int) (x : Rect) (l : List Rect) :
    computeBounds ((x :: l).map (shiftRect dx dy))
      = shiftRect dx dy (computeBounds (x :: l)) := by
  show List.foldl boundsUnion (shiftRect dx dy x) (l.map (shiftRect dx dy))
      = shiftRect dx dy (List.foldl boundsUnion x l)
  induction l generalizing x with
  | nil => rfl
  | cons y ys ih =>
    show List.foldl boundsUnion (boundsUnion (shiftRect dx dy x) (shiftRect dx dy y))
        (ys.map (shiftRect dx dy)) = _
    rw [boundsUnion_shift]
    exact ih (boundsUnion x y)

theorem boundsOK_foldUnited (rs : List Rect) :
    ∀ acc : Region,
      ((acc.rects = [] → acc.m_bounds.isEmpty = true) ∧
        (acc.rects ≠ [] → acc.m_bounds = computeBounds acc.rects)) →
      (((rs.foldl (fun a r => a.unitedRect r) acc).rects = [] →
          (rs.foldl (fun a r => a.unitedRect r) acc).m_bounds.isEmpty = true) ∧
        ((rs.foldl (fun a r => a.unitedRect r) acc).rects ≠ [] →
          (rs.foldl (fun a r => a.unitedRect r) acc).m_bounds
            = computeBounds (rs.foldl (fun a r => a.unitedRect r) acc).rects)) := by
  induction rs with
  | nil => exact fun acc h => h
  | cons r rest ih => exact fun acc h => ih _ (boundsOK_setRects _)

/-! ### The claims -/

/-- C1, counterexample to the claim as stated: the public constructor
`Region(const Rect &)` applied to the empty rectangle at position `(5, 5)`
yields a region whose `rects()` view is empty, exactly as for the
default-constructed empty region, yet `operator==` compares the `m_bounds`
members `(5, 5, 0, 0)` and `(0, 0, 0, 0)` and returns `false`: equal
canonical rectangle lists do not imply equality. -/
theorem spec_C1_counterexample :
    (Region.ofRect ⟨5, 5, 0, 0⟩).rects = Region.empty.rects ∧
      Region.beq (Region.ofRect ⟨5, 5, 0, 0⟩) Region.empty = false := by
  decide

/-- C1, amended: for all well-formed regions `A` and `B` (regions whose two
members store the canonical list the way every producer stores it),
`A == B` returns `true` if and only if their canonical rectangle lists are
equal element-wise. -/
theorem spec_C1_eq_iff_rects (A B : Region) (hA : A.WF) (hB : B.WF) :
    Region.beq A B = true ↔ A.rects = B.rects := by
  constructor
  · intro h
    unfold Region.beq at h
    rw [Bool.and_eq_true, decide_eq_true_iff, decide_eq_true_iff] at h
    obtain ⟨h₁, h₂⟩ := h
    cases A
    cases B
    cases h₁
    cases h₂
    rfl
  · intro h
    have hAB : A = B := by
      rw [← hA, ← hB, h]
    rw [hAB]
    exact Region.beq_self B

/-- C1, witness: the amended equivalence applied to the one-rectangle region
`(0, 0, 10, 10)` and the same point set built by uniting its top and bottom
halves (which the algorithm coalesces back into one rectangle). -/
theorem spec_C1_eq_iff_rects_witness :
    Region.beq (Region.ofXYWH 0 0 10 10)
        ((Region.ofXYWH 0 0 10 5).united (Region.ofXYWH 0 5 10 5)) = true ↔
      (Region.ofXYWH 0 0 10 10).rects
        = ((Region.ofXYWH 0 0 10 5).united (Region.ofXYWH 0 5 10 5)).rects :=
  spec_C1_eq_iff_rects _ _ (by decide) (by decide)

/-- C2: for every region value produced by any public constructor or
operation of the region API — the default, rectangle, copy, move and
`QRegion` constructors, the three list constructors, `infinite`, the four
set operations with both overloads (and hence the delegating convenience
operators), translation, `scaledAndRoundedOut`, both sides of moves
including self-move, and the rounding conversions from `RegionF` —
`boundingRect()` equals the component-wise union of the bounds of the
rectangles in its canonical list, and is an empty rectangle when the list
is empty. -/
theorem spec_C2_bounds_invariant (r : Region) (h : Produced r) :
    (r.rects = [] → r.boundingRect.isEmpty = true) ∧
      (r.rects ≠ [] → r.boundingRect = computeBounds r.rects) := by
  induction h with
  | empty => exact boundsOK_setRects []
  | ofXYWH x y w h => exact boundsOK_setRects [⟨x, y, w, h⟩]
  | ofRect rect => exact boundsOK_setRects [rect]
  | infinite =>
    exact boundsOK_setRects [⟨intMin.tdiv 2, intMin.tdiv 2, intMax, intMax⟩]
  | fromSortedRects rs => exact boundsOK_setRects rs
  | fromUnsortedRects rs =>
    exact boundsOK_foldUnited rs Region.empty (boundsOK_setRects [])
  | fromRectsSortedByY rs =>
    exact boundsOK_foldUnited rs Region.empty (boundsOK_setRects [])
  | ofQRegion rs =>
    exact boundsOK_foldUnited rs Region.empty (boundsOK_setRects [])
  | united a b ha hb iha ihb => exact boundsOK_setRects _
  | subtracted a b ha hb iha ihb => exact boundsOK_setRects _
  | xored a b ha hb iha ihb => exact boundsOK_setRects _
  | intersected a b ha hb iha ihb => exact boundsOK_setRects _
  | unitedRect a t ha iha => exact boundsOK_setRects _
  | subtractedRect a t ha iha => exact boundsOK_setRects _
  | xoredRect a t ha iha => exact boundsOK_setRects _
  | intersectedRect a t ha iha => exact boundsOK_setRects _
  | copy a ha iha => exact iha
  | translated a dx dy ha iha =>
    obtain ⟨ih₁, ih₂⟩ := iha
    constructor
    · intro h0
      rw [rects_translated, List.map_eq_nil_iff] at h0
      exact ih₁ h0
    · intro h0
      rw [rects_translated] at h0
      rw [rects_translated]
      rcases hrl : a.rects with _ | ⟨x, l⟩
      · rw [hrl] at h0
        simp at h0
      · have hb : a.m_bounds = computeBounds a.rects := ih₂ (by rw [hrl]; simp)
        show shiftRect dx dy a.m_bounds = _
        rw [hb, hrl]
        exact (computeBounds_map_shift dx dy x l).symm
  | scaledAndRoundedOut a sx sy ha iha =>
    exact boundsOK_foldUnited _ Region.empty (boundsOK_setRects [])
  | moveConstructDst a ha iha => exact iha
  | moveConstructSrc a ha iha => exact boundsOK_setRects []
  | moveAssignDst dst a hd ha ihd iha => exact iha
  | moveAssignSrc dst a hd ha ihd iha => exact boundsOK_setRects []
  | moveAssignSelf a ha iha => exact iha
  | roundedF fr => exact boundsOK_foldUnited _ Region.empty (boundsOK_setRects [])
  | roundedInF fr =>
    exact boundsOK_foldUnited _ Region.empty (boundsOK_setRects [])
  | roundedOutF fr =>
    exact boundsOK_foldUnited _ Region.empty (boundsOK_setRects [])

/-- C2, witness: the bounds invariant at the hole-subtraction result
`Region(0, 0, 30, 30).subtracted(Rect(10, 10, 10, 10))`. -/
theorem spec_C2_bounds_invariant_witness :
    (((Region.ofXYWH 0 0 30 30).subtractedRect ⟨10, 10, 10, 10⟩).rects = [] →
        ((Region.ofXYWH 0 0 30 30).subtractedRect
            ⟨10, 10, 10, 10⟩).boundingRect.isEmpty = true) ∧
      (((Region.ofXYWH 0 0 30 30).subtractedRect ⟨10, 10, 10, 10⟩).rects ≠ [] →
        ((Region.ofXYWH 0 0 30 30).subtractedRect ⟨10, 10, 10, 10⟩).boundingRect
          = computeBounds
              ((Region.ofXYWH 0 0 30 30).subtractedRect ⟨10, 10, 10, 10⟩).rects) :=
  spec_C2_bounds_invariant _
    (Produced.subtractedRect _ _ (Produced.ofXYWH 0 0 30 30))

/-- C3: `Region::infinite()` returns the region of the single rectangle
`(INT_MIN / 2, INT_MIN / 2, INT_MAX, INT_MAX)`: both top-left coordinates
are `INT_MIN / 2 = -1073741824` (C++ division truncates toward zero) and the
width and height are both `INT_MAX = 2147483647`. -/
theorem spec_C3_infinite_int :
    Region.infinite
        = Region.ofXYWH (-1073741824) (-1073741824) 2147483647 2147483647 ∧
      intMin.tdiv 2 = -1073741824 ∧ intMax = 2147483647 ∧
      Region.infinite.rects
        = [⟨-1073741824, -1073741824, 2147483647, 2147483647⟩] := by
  decide

/-- C4, code-bug evidence: `RegionF::infinite()` uses
`std::numeric_limits<qreal>::min() / 2`, and for `double` the `min()` is the
smallest positive normal, not the most negative value.  The top-left corner
of the returned rectangle is therefore the positive subnormal `2 ^ (-1023)`
in both axes, so the "infinite" region does not cover any negative
coordinate, contradicting the documented intent (the integer variant and the
spec place the corner at a large negative value). -/
theorem spec_C4_infiniteF_positive_corner :
    RegionF.infinite.m_bounds.x = 1 / 2 ^ 1023 ∧
      RegionF.infinite.m_bounds.y = 1 / 2 ^ 1023 ∧
      0 < RegionF.infinite.m_bounds.x ∧ 0 < RegionF.infinite.m_bounds.y := by
  refine ⟨?_, ?_, by norm_num [RegionF.infinite, RegionF.ofXYWH, dblMin], by
    norm_num [RegionF.infinite, RegionF.ofXYWH, dblMin]⟩ <;>
    · show dblMin / 2 = 1 / 2 ^ 1023
      rw [dblMin]
      norm_num

/-- C5: move construction and move assignment from `r` (into a distinct
destination) hand `r`'s former rectangle list and bounds to the destination
unchanged and leave `r` as the empty region: empty rectangle list and empty
(all-zero) bounds. -/
theorem spec_C5_move_empties_source (dst r : Region) :
    Region.moveConstruct r = (r, Region.empty) ∧
      Region.moveAssign dst r = (r, Region.empty) ∧
      Region.empty.m_rects = [] ∧ Region.empty.m_bounds.isEmpty = true :=
  ⟨rfl, rfl, rfl, by decide⟩

/-- C6: each `(rect)` overload agrees with the corresponding `(region)`
overload applied to the single-rectangle region, and the two results compare
equal under `operator==`: `r.united(t) == r.united(Region(t))` and likewise
for `subtracted`, `xored`, and `intersected`. -/
theorem spec_C6_rect_overloads_agree (r : Region) (t : Rect) :
    Region.beq (r.unitedRect t) (r.united (Region.ofRect t)) = true ∧
      Region.beq (r.subtractedRect t) (r.subtracted (Region.ofRect t)) = true ∧
      Region.beq (r.xoredRect t) (r.xored (Region.ofRect t)) = true ∧
      Region.beq (r.intersectedRect t) (r.intersected (Region.ofRect t)) = true :=
  ⟨Region.beq_self _, Region.beq_self _, Region.beq_self _, Region.beq_self _⟩

/-- C7: union, intersection, and exclusive-or are commutative: for all
regions `A` and `B` (in particular all canonical ones),
`A.united(B) == B.united(A)`, `A.intersected(B) == B.intersected(A)`, and
`A.xored(B) == B.xored(A)`. -/
theorem spec_C7_commutativity (a b : Region) :
    Region.beq (a.united b) (b.united a) = true ∧
      Region.beq (a.intersected b) (b.intersected a) = true ∧
      Region.beq (a.xored b) (b.xored a) = true := by
  have hu : a.united b = b.united a := regionOp_comm _ (by decide) a b
  have hi : a.intersected b = b.intersected a := regionOp_comm _ (by decide) a b
  have hx : a.xored b = b.xored a := regionOp_comm _ (by decide) a b
  rw [hu, hi, hx]
  exact ⟨Region.beq_self _, Region.beq_self _, Region.beq_self _⟩

/-- C8, counterexample to the claim as stated: the library-produced region
`Region(Rect(7, 7, 0, 0))` has an empty `rects()` view, so
`fromSortedRects(r.rects())` rebuilds the empty region with all-zero bounds,
while `r` itself kept the bounds `(7, 7, 0, 0)`; `operator==` compares the
bounds members and returns `false`. -/
theorem spec_C8_counterexample :
    Region.beq
        (Region.fromSortedRects (Region.ofRect ⟨7, 7, 0, 0⟩).rects)
        (Region.ofRect ⟨7, 7, 0, 0⟩) = false := by
  decide

/-- C8, amended: the round trip through the sorted constructor is the
identity on every well-formed region:
`Region::fromSortedRects(r.rects()) == r` whenever `r`'s members store its
canonical list the way every producer stores it. -/
theorem spec_C8_roundTrip (r : Region) (h : r.WF) :
    Region.beq (Region.fromSortedRects r.rects) r = true := by
  have heq : Region.fromSortedRects r.rects = r := h
  rw [heq]
  exact Region.beq_self r

/-- C8, witness: the round trip at the two-band region built by uniting two
disjoint rectangles. -/
theorem spec_C8_roundTrip_witness :
    Region.WF ((Region.ofXYWH 0 0 10 10).united (Region.ofXYWH 20 5 10 10)) ∧
      Region.beq
          (Region.fromSortedRects
            ((Region.ofXYWH 0 0 10 10).united (Region.ofXYWH 20 5 10 10)).rects)
          ((Region.ofXYWH 0 0 10 10).united (Region.ofXYWH 20 5 10 10)) = true :=
  ⟨by decide, spec_C8_roundTrip _ (by decide)⟩

/-- C9: subtracting the interior hole `Rect(10, 10, 10, 10)` from
`Region(0, 0, 30, 30)` produces exactly the three bands
`[(0, 0, 30, 10)]`, `[(0, 10, 10, 10), (20, 10, 10, 10)]`, and
`[(0, 20, 30, 10)]`, i.e. the canonical rectangle list
`[(0, 0, 30, 10), (0, 10, 10, 10), (20, 10, 10, 10), (0, 20, 30, 10)]`. -/
theorem spec_C9_subtract_hole :
    ((Region.ofXYWH 0 0 30 30).subtractedRect ⟨10, 10, 10, 10⟩).rects
      = [⟨0, 0, 30, 10⟩, ⟨0, 10, 10, 10⟩, ⟨20, 10, 10, 10⟩,
          ⟨0, 20, 30, 10⟩] := by
  decide

/-- C10: self-move-assignment is value preserving for both coordinate
variants: `std::exchange` first stores the empty value into the member and
returns the old one, which the enclosing assignment immediately writes back,
so after `r = std::move(r)` the region still holds its original rectangle
list and bounds. -/
theorem spec_C10_self_move_preserves (r : Region) (f : RegionF) :
    Region.moveAssignSelf r = r ∧ RegionF.moveAssignSelf f = f :=
  ⟨rfl, rfl⟩

end KWinRegion
